import Mathlib

set_option maxHeartbeats 1000000

/-
Shallow embedding of the BGP session engine in internal/bgp/bgp.go.

The engine keeps, per peer, a map `advertised` of prefixes believed to be
installed at the peer and an optional map `new` of freshly desired
advertisements; a writer loop (sendUpdates) diffs the two and emits
UPDATE/WITHDRAW messages, a connector negotiates the hold time, a keepalive
ticker derives its period from the negotiated hold time, and a reader drains
inbound messages and tears the session down on error.

Concurrency is embedded by making every mutation of the shared Session
state an explicit function from state to state, and by modelling a single
iteration of each loop body.  Fallible socket sends are embedded with an
oracle `sendOk : Nat → Bool` giving the fate of the k-th send attempted on
the current connection.  Go maps (map[string]*Advertisement) are embedded as
association lists with unique keys; Go map iteration order is unspecified,
so list order stands for one admissible iteration order.
-/

namespace BgpSpec

/-- Go net.IP: a byte slice (each entry one byte). -/
abbrev IP := List Nat

/-- net.v4InV6Prefix: the 12 fixed leading bytes of a v4-mapped v6 address. -/
def v4InV6Prefix : List Nat := [0, 0, 0, 0, 0, 0, 0, 0, 0, 0, 255, 255]

/-- Go net.IP.To4: 4-byte addresses are returned as is, 16-byte v4-mapped
addresses are shortened to their last 4 bytes, anything else yields nil
(embedded as none). -/
def ipTo4 (ip : IP) : Option IP :=
  if ip.length = 4 then some ip
  else if ip.length = 16 ∧ ip.take 12 = v4InV6Prefix then some (ip.drop 12)
  else none

/-- Go net.IP.Equal: bytewise equality up to the v4 / v4-in-v6 duality. -/
def ipEqual (a x : IP) : Bool :=
  if a.length = x.length then a == x
  else if a.length = 4 ∧ x.length = 16 then
    decide (x.take 12 = v4InV6Prefix ∧ a = x.drop 12)
  else if a.length = 16 ∧ x.length = 4 then
    decide (a.take 12 = v4InV6Prefix ∧ x = a.drop 12)
  else false

/-- Go net.IPNet: an IP network (address plus mask). -/
structure IPNet where
  IP : IP
  Mask : List Nat
deriving DecidableEq

/-- Inner loop of net.simpleMaskLength on one byte: the number of leading
one bits, provided the byte is of the shape 1...10...0, else none.  The Go
loop shifts the byte left counting set high bits and rejects any remainder;
on 8-bit values that is exactly this table. -/
def byteMaskBits (v : Nat) : Option Nat :=
  if v = 255 then some 8
  else if v = 254 then some 7
  else if v = 252 then some 6
  else if v = 248 then some 5
  else if v = 240 then some 4
  else if v = 224 then some 3
  else if v = 192 then some 2
  else if v = 128 then some 1
  else if v = 0 then some 0
  else none

/-- Go net.simpleMaskLength: the prefix length of a canonical mask, none
(Go: -1) when the mask is not of the shape 1...10...0. -/
def simpleMaskLength : List Nat → Option Nat
  | [] => some 0
  | v :: rest =>
    if v = 255 then Option.map (fun n => 8 + n) (simpleMaskLength rest)
    else
      match byteMaskBits v with
      | none => none
      | some k => if rest.all (fun b => b = 0) then some k else none

/-- Go net.IP.String on a 4-byte address: dotted decimal. -/
def ipDotted (ip4 : IP) : String :=
  String.intercalate "." (ip4.map (fun b => toString b))

/-- One lowercase hexadecimal digit. -/
def hexDigitChar (n : Nat) : Char :=
  if n < 10 then Char.ofNat (48 + n) else Char.ofNat (87 + n)

/-- Go net.IPMask.String: two lowercase hex digits per byte. -/
def maskHex (m : List Nat) : String :=
  String.join (m.map (fun v => String.mk [hexDigitChar (v / 16), hexDigitChar (v % 16)]))

/-- Go net.IPNet.String, the canonical map key of an advertisement
(bgp.go line 307 keys the desired map by adv.Prefix.String()).  Set only
admits prefixes whose IP is v4-convertible, so the IPv6 textual branch of
net.IP.String is never reached by this package; non-v4 IPs map to a fixed
out-of-domain spelling here.  Masks of length other than 4 or 16 yield
Go's "<nil>" spelling; non-canonical masks are rendered in hex after the
slash, canonical ones as their prefix length. -/
def prefixKey (n : IPNet) : String :=
  match ipTo4 n.IP with
  | none => "<non-v4>"
  | some ip4 =>
    let m :=
      if n.Mask.length = 4 then some n.Mask
      else if n.Mask.length = 16 then some (n.Mask.drop 12)
      else none
    match m with
    | none => "<nil>"
    | some mask4 =>
      match simpleMaskLength mask4 with
      | none => ipDotted ip4 ++ "/" ++ maskHex mask4
      | some l => ipDotted ip4 ++ "/" ++ toString l

/-- bgp.go lines 339-344: one advertisement. -/
structure Advertisement where
  Prefix : IPNet
  NextHop : IP
  LocalPref : Nat
  Communities : List Nat
deriving DecidableEq

/-- Go map[string]*Advertisement, embedded as an association list with
unique keys; entries are never nil pointers (Set only stores real
advertisements). -/
abbrev AdvMap := List (String × Advertisement)

/-- Go map lookup m[k] (with the ok flag embedded as Option). -/
def mapLookup : AdvMap → String → Option Advertisement
  | [], _ => none
  | p :: rest, k => if p.1 = k then some p.2 else mapLookup rest k

/-- Go map assignment m[k] = v: replace the existing entry, else append. -/
def mapInsert : AdvMap → String → Advertisement → AdvMap
  | [], k, v => [(k, v)]
  | p :: rest, k, v => if p.1 = k then (k, v) :: rest else p :: mapInsert rest k v

/-- bgp.go lines 24-41: the Session, configuration plus mutable state.
The sync primitives (mu, cond, the newHoldTime channel) and the unused
`pending` list are not data and are embedded by the explicit state-passing
discipline of the operations below; connections are identified by a Nat
token (Go compares them by interface identity). -/
structure Session where
  asn : Nat
  routerID : IP
  addr : String
  peerASN : Nat
  holdTime : Nat
  closed : Bool
  conn : Option Nat
  actualHoldTime : Nat
  advertised : AdvMap
  new : Option AdvMap
deriving DecidableEq

/-- bgp.go lines 316-329: abort.  Close and drop the connection if one is
present, and fold a still-present desired map into `advertised` so the next
connection resynchronises from the latest desire. -/
def Session.abort (s : Session) : Session :=
  let s1 := if s.conn ≠ none then { s with conn := none } else s
  match s1.new with
  | some m => { s1 with advertised := m, new := none }
  | none => s1

/-- bgp.go lines 70-73: the ASN handed to the UPDATE encoder; the sentinel
0 (empty AS_PATH) on an iBGP session. -/
def Session.wireASN (s : Session) : Nat :=
  if s.peerASN = s.asn then 0 else s.asn

/-- A message put on the wire by the Writer: sendUpdate carries the
encoder ASN and one advertisement; sendWithdraw carries a batch of
withdrawn prefixes. -/
inductive Msg where
  | update (asn : Nat) (adv : Advertisement)
  | withdraw (prefixes : List IPNet)
deriving DecidableEq

/-- bgp.go lines 79-85, the first pass after (re)connect: send an UPDATE
for every entry of `advertised`, unconditionally.  `sendOk k` is the fate
of the k-th send on this connection; the result is (messages delivered,
next send index, whether every send succeeded). -/
def sendAllPhase (sendOk : Nat → Bool) (asnW : Nat) :
    AdvMap → Nat → List Msg × Nat × Bool
  | [], k => ([], k, true)
  | p :: rest, k =>
    if sendOk k then
      let r := sendAllPhase sendOk asnW rest (k + 1)
      (Msg.update asnW p.2 :: r.1, r.2.1, r.2.2)
    else ([], k, false)

/-- bgp.go line 106: the entry of the desired map is skipped when the
advertised map already carries an entry under the same key with equal
NextHop (net.IP.Equal) and deeply equal Communities. -/
def shouldSkip (advertised : AdvMap) (c : String) (adv : Advertisement) : Bool :=
  match mapLookup advertised c with
  | some adv2 => ipEqual adv2.NextHop adv.NextHop && adv2.Communities == adv.Communities
  | none => false

/-- bgp.go lines 105-117, the UPDATE loop of a steady-state diff pass:
entries already correctly held by the peer are skipped, every other entry
is sent; a send failure stops the loop. -/
def updatePhase (sendOk : Nat → Bool) (asnW : Nat) (advertised : AdvMap) :
    AdvMap → Nat → List Msg × Nat × Bool
  | [], k => ([], k, true)
  | p :: rest, k =>
    if shouldSkip advertised p.1 p.2 then updatePhase sendOk asnW advertised rest k
    else if sendOk k then
      let r := updatePhase sendOk asnW advertised rest (k + 1)
      (Msg.update asnW p.2 :: r.1, r.2.1, r.2.2)
    else ([], k, false)

/-- bgp.go lines 119-124: the withdrawn prefixes, those advertised entries
whose key the desired map does not hold (s.new[c] == nil; Set never stores
nil values, so this is key absence). -/
def withdrawnPrefixes (advertised pend : AdvMap) : List IPNet :=
  (advertised.filter (fun p => (mapLookup pend p.1).isNone)).map (fun p => p.2.Prefix)

/-- Outcome of one iteration of the steady-state loop body of sendUpdates
(bgp.go lines 93-133): return errClosed, return nil (connection gone),
return a send error (state aborted), or go round the loop again. -/
inductive WriterOut where
  | retClosed (s : Session)
  | retNoConn (s : Session)
  | retErr (msgs : List Msg) (s : Session) (k : Nat)
  | next (msgs : List Msg) (s : Session) (k : Nat)
deriving DecidableEq

/-- The messages an iteration outcome put on the wire. -/
def WriterOut.msgs : WriterOut → List Msg
  | .retClosed _ => []
  | .retNoConn _ => []
  | .retErr ms _ _ => ms
  | .next ms _ _ => ms

/-- bgp.go lines 93-133: one iteration of the steady-state loop body of
sendUpdates, entered after a wake of the condition variable.  With no
desired map present the body is the `continue` branch and emits nothing.
With one present it runs the UPDATE loop, then sends one WITHDRAW when the
withdrawn list is non-empty, then commits advertised := new, new := nil;
any send failure aborts (bgp.go lines 112-114 and 126-128). -/
def Session.writerIter (s : Session) (sendOk : Nat → Bool) (k : Nat) : WriterOut :=
  if s.closed then .retClosed s
  else if s.conn = none then .retNoConn s
  else
    match s.new with
    | none => .next [] s k
    | some pend =>
      if (updatePhase sendOk s.wireASN s.advertised pend k).2.2 = false then
        .retErr (updatePhase sendOk s.wireASN s.advertised pend k).1 s.abort
          (updatePhase sendOk s.wireASN s.advertised pend k).2.1
      else if (withdrawnPrefixes s.advertised pend).isEmpty then
        .next (updatePhase sendOk s.wireASN s.advertised pend k).1
          { s with advertised := pend, new := none }
          (updatePhase sendOk s.wireASN s.advertised pend k).2.1
      else if sendOk (updatePhase sendOk s.wireASN s.advertised pend k).2.1 then
        .next ((updatePhase sendOk s.wireASN s.advertised pend k).1 ++
            [Msg.withdraw (withdrawnPrefixes s.advertised pend)])
          { s with advertised := pend, new := none }
          ((updatePhase sendOk s.wireASN s.advertised pend k).2.1 + 1)
      else
        .retErr (updatePhase sendOk s.wireASN s.advertised pend k).1 s.abort
          (updatePhase sendOk s.wireASN s.advertised pend k).2.1

/-- bgp.go lines 75-77: on entry to sendUpdates a present desired map is
promoted wholesale: advertised := new, new := nil. -/
def Session.promote (s : Session) : Session :=
  match s.new with
  | some m => { s with advertised := m, new := none }
  | none => s

/-- bgp.go lines 70-86: the first pass of sendUpdates after (re)connect.
A present desired map is promoted, then an UPDATE is sent for every
advertised entry; a send failure aborts. -/
def Session.firstPass (s : Session) (sendOk : Nat → Bool) (k : Nat) :
    List Msg × Session × Nat × Bool :=
  if (sendAllPhase sendOk s.wireASN s.promote.advertised k).2.2 then
    ((sendAllPhase sendOk s.wireASN s.promote.advertised k).1, s.promote,
      (sendAllPhase sendOk s.wireASN s.promote.advertised k).2.1, true)
  else
    ((sendAllPhase sendOk s.wireASN s.promote.advertised k).1, s.promote.abort,
      (sendAllPhase sendOk s.wireASN s.promote.advertised k).2.1, false)

/-- bgp.go line 89: the guard under which the Writer stays blocked on the
condition variable (no desired map and a live connection). -/
def Session.writerWaits (s : Session) : Bool :=
  s.new.isNone && s.conn.isSome

/-- bgp.go lines 260-268, the deferred epilogue of consumeBGP, run when the
Reader terminates (read error or marker mismatch): under the session lock,
abort when the Session still holds, by identity, the very connection this
Reader was bound to, otherwise only close that stale connection.  Returns
the session state and whether abort was called. -/
def Session.consumeBGPCleanup (s : Session) (conn : Nat) : Session × Bool :=
  if s.conn = some conn then (s.abort, true) else (s, false)

/-- bgp.go lines 280-283: validity of the 16-byte all-ones marker of an
inbound message header (two 8-byte halves). -/
def markerOk (marker1 marker2 : Nat) : Bool :=
  marker1 == 0xffffffffffffffff && marker2 == 0xffffffffffffffff

/-- bgp.go lines 297-306: the validation Set applies to one advertisement,
in source order; none means valid. -/
def advError (adv : Advertisement) : Option String :=
  if (ipTo4 adv.Prefix.IP).isNone then some "cannot advertise non-v4 prefix"
  else if (ipTo4 adv.NextHop).isNone then some "next-hop must be IPv4"
  else if 63 < adv.Communities.length then some "max supported communities is 63"
  else none

/-- bgp.go lines 295-308: build the fresh desired map, validating each
advertisement and returning the first validation error; later
advertisements with the same prefix string overwrite earlier ones. -/
def buildNewAdvs : List Advertisement → AdvMap → Except String AdvMap
  | [], m => .ok m
  | adv :: rest, m =>
    match advError adv with
    | some e => .error e
    | none => buildNewAdvs rest (mapInsert m (prefixKey adv.Prefix) adv)

/-- bgp.go lines 291-314: Set.  On success the desired map replaces
`new` wholesale and the condition variable is broadcast; on a validation
error nothing of the session state changes.  Returns (state, error). -/
def Session.Set (s : Session) (advs : List Advertisement) : Session × Option String :=
  match buildNewAdvs advs [] with
  | .error e => (s, some e)
  | .ok m => ({ s with new := some m }, none)

/-- bgp.go lines 170-174 inside connect: the negotiated hold time is the
configured one lowered to the peer-requested one if that is smaller. -/
def Session.connectHold (s : Session) (requestedHold : Nat) : Session :=
  let a := s.holdTime
  let a := if requestedHold < a then requestedHold else a
  { s with actualHoldTime := a }

/-- bgp.go lines 190-204, the reaction of sendKeepalives to a newly
published hold time: the running timer (if any) is stopped and dropped; a
non-zero hold time starts a fresh periodic timer of period ht / 3, a zero
one leaves no timer running.  The value is the period of the running
timer, none when idle. -/
def keepaliveTimer (ht : Nat) (_t : Option Nat) : Option Nat :=
  let stopped : Option Nat := none
  if ht ≠ 0 then some (ht / 3) else stopped

/-- time.Duration is an integer nanosecond count; one second of it. -/
def second : Nat := 1000000000

/-- A send oracle under which every send succeeds: a healthy connection. -/
def allOk : Nat → Bool := fun _ => true

/-- Whether a message is an UPDATE announcing the prefix keyed `c`. -/
def isUpdateFor (c : String) : Msg → Bool
  | .update _ a => prefixKey a.Prefix == c
  | .withdraw _ => false

/-- How many UPDATEs of a message list announce the prefix keyed `c`. -/
def updatesFor (msgs : List Msg) (c : String) : Nat :=
  (msgs.filter (isUpdateFor c)).length

/-- The withdraw batches of a message list, in order. -/
def withdrawMsgs (msgs : List Msg) : List (List IPNet) :=
  msgs.filterMap (fun m => match m with | .withdraw w => some w | .update _ _ => none)

/-- The accumulation step of buildNewAdvs, isolated: insert each
advertisement under its prefix string. -/
def insFold (m : AdvMap) (advs : List Advertisement) : AdvMap :=
  advs.foldl (fun acc a => mapInsert acc (prefixKey a.Prefix) a) m

/-- Concrete sample data for the witnesses. -/
def samplePrefix1 : IPNet := { IP := [10, 1, 0, 0], Mask := [255, 255, 255, 0] }

def samplePrefix2 : IPNet := { IP := [10, 2, 0, 0], Mask := [255, 255, 255, 0] }

def sampleAdv1 : Advertisement :=
  { Prefix := samplePrefix1, NextHop := [10, 0, 0, 1], LocalPref := 100, Communities := [100] }

/-- sampleAdv1 with only LocalPref changed. -/
def sampleAdv1L : Advertisement :=
  { Prefix := samplePrefix1, NextHop := [10, 0, 0, 1], LocalPref := 200, Communities := [100] }

def sampleAdv2 : Advertisement :=
  { Prefix := samplePrefix2, NextHop := [10, 0, 0, 1], LocalPref := 0, Communities := [] }

/-- sampleAdv2 with a different next hop. -/
def sampleAdv2b : Advertisement :=
  { Prefix := samplePrefix2, NextHop := [10, 0, 0, 2], LocalPref := 0, Communities := [] }

/-- An advertisement Set must reject: 64 communities. -/
def badAdv : Advertisement :=
  { Prefix := samplePrefix1, NextHop := [10, 0, 0, 1], LocalPref := 0,
    Communities := List.replicate 64 1 }

def sampleSession : Session :=
  { asn := 65001, routerID := [10, 0, 0, 1], addr := "10.9.9.9:179", peerASN := 65002,
    holdTime := 90 * second, closed := false, conn := some 1, actualHoldTime := 0,
    advertised := [], new := none }

/-- A send oracle under which every send fails. -/
def allFail : Nat → Bool := fun _ => false

/-- Desired map with a LocalPref-only change on prefix 1 and a next-hop
change on prefix 2. -/
def pendC1 : AdvMap :=
  [(prefixKey samplePrefix1, sampleAdv1L), (prefixKey samplePrefix2, sampleAdv2b)]

def sessC1 : Session :=
  { sampleSession with
      advertised := [(prefixKey samplePrefix1, sampleAdv1), (prefixKey samplePrefix2, sampleAdv2)],
      new := some pendC1 }

/-- Desired map retaining only prefix 1 of two advertised prefixes. -/
def pendC2 : AdvMap := [(prefixKey samplePrefix1, sampleAdv1)]

def sessC2 : Session :=
  { sampleSession with
      advertised := [(prefixKey samplePrefix1, sampleAdv1), (prefixKey samplePrefix2, sampleAdv2)],
      new := some pendC2 }

def sessC3 : Session :=
  { sampleSession with advertised := [], new := some [(prefixKey samplePrefix1, sampleAdv1)] }

/-- Session with a present-and-empty desired map. -/
def sessC4 : Session :=
  { sampleSession with
      advertised := [(prefixKey samplePrefix1, sampleAdv1)], new := some [] }

/-- Session with an absent desired map. -/
def sessC4b : Session :=
  { sampleSession with advertised := [(prefixKey samplePrefix1, sampleAdv1)], new := none }

/-- An iBGP session (peer ASN equal to the local ASN) with one pending
advertisement. -/
def sessC9 : Session :=
  { sampleSession with
      peerASN := 65001, advertised := [],
      new := some [(prefixKey samplePrefix1, sampleAdv1)] }

end BgpSpec

namespace BgpSpec

theorem mapLookup_mapInsert (m : AdvMap) (k : String) (v : Advertisement) (c : String) :
    mapLookup (mapInsert m k v) c = if k = c then some v else mapLookup m c := by
  induction m with
  | nil => simp [mapInsert, mapLookup]
  | cons p rest ih =>
    simp only [mapInsert]
    by_cases h : p.1 = k
    · rw [if_pos h]
      by_cases hkc : k = c
      · simp [mapLookup, hkc]
      · have hpc : ¬p.1 = c := by rw [h]; exact hkc
        simp [mapLookup, hkc, hpc]
    · rw [if_neg h]
      by_cases hpc : p.1 = c
      · have hkc : ¬k = c := fun hkc => h (by rw [hpc, hkc])
        simp [mapLookup, hpc, hkc]
      · simp [mapLookup, hpc, ih]

theorem lookup_insFold (advs : List Advertisement) (m : AdvMap) (c : String) :
    mapLookup (insFold m advs) c =
      match (advs.filter fun a => prefixKey a.Prefix == c).getLast? with
      | some a => some a
      | none => mapLookup m c := by
  induction advs generalizing m with
  | nil => simp [insFold]
  | cons a rest ih =>
    have hstep : insFold m (a :: rest) = insFold (mapInsert m (prefixKey a.Prefix) a) rest := rfl
    rw [hstep, ih]
    by_cases h : prefixKey a.Prefix = c
    · cases hl : (rest.filter fun x => prefixKey x.Prefix == c) with
      | nil => simp [List.filter_cons, h, hl, mapLookup_mapInsert]
      | cons b bs =>
        have hne : (b :: bs) ≠ [] := by simp
        have hx := List.getLast?_eq_getLast_of_ne_nil hne
        have hfa : (a :: rest).filter (fun y => prefixKey y.Prefix == c) = a :: b :: bs := by
          simp [List.filter_cons, h, hl]
        rw [hfa, List.getLast?_cons_cons, hx]
    · simp [List.filter_cons, h, mapLookup_mapInsert]

theorem buildNewAdvs_ok (advs : List Advertisement) (m : AdvMap)
    (h : ∀ a ∈ advs, advError a = none) :
    buildNewAdvs advs m = .ok (insFold m advs) := by
  induction advs generalizing m with
  | nil => simp [buildNewAdvs, insFold]
  | cons a rest ih =>
    have ha : advError a = none := h a (by simp)
    have hstep : insFold m (a :: rest) = insFold (mapInsert m (prefixKey a.Prefix) a) rest := rfl
    rw [hstep]
    simp only [buildNewAdvs, ha]
    exact ih _ (fun x hx => h x (by simp [hx]))

theorem buildNewAdvs_error_iff (advs : List Advertisement) (m : AdvMap) :
    (∃ e, buildNewAdvs advs m = .error e) ↔ ∃ a ∈ advs, (advError a).isSome = true := by
  induction advs generalizing m with
  | nil => simp [buildNewAdvs]
  | cons a rest ih =>
    cases h : advError a with
    | some e => simp [buildNewAdvs, h]
    | none => simp [buildNewAdvs, h, ih]

theorem advError_isSome_iff (a : Advertisement) :
    (advError a).isSome = true ↔
      ipTo4 a.Prefix.IP = none ∨ ipTo4 a.NextHop = none ∨ 63 < a.Communities.length := by
  unfold advError
  by_cases h1 : (ipTo4 a.Prefix.IP).isNone <;>
    by_cases h2 : (ipTo4 a.NextHop).isNone <;>
      by_cases h3 : 63 < a.Communities.length <;>
        simp_all [Option.isNone_iff_eq_none, Option.isSome_iff_exists]

theorem abort_spec (s : Session) :
    s.abort.conn = none ∧ s.abort.new = none ∧
    s.abort.advertised = (match s.new with | some m => m | none => s.advertised) := by
  unfold Session.abort
  by_cases h : s.conn = none <;> cases hn : s.new <;> simp [h, hn]

theorem updatePhase_allOk (asnW : Nat) (advertised : AdvMap) (l : AdvMap) (k : Nat) :
    updatePhase allOk asnW advertised l k =
      ((l.filter fun p => !shouldSkip advertised p.1 p.2).map fun p => Msg.update asnW p.2,
       k + (l.filter fun p => !shouldSkip advertised p.1 p.2).length, true) := by
  induction l generalizing k with
  | nil => simp [updatePhase]
  | cons p rest ih =>
    by_cases h : shouldSkip advertised p.1 p.2
    · simp [updatePhase, h, List.filter_cons, ih]
    · simp [updatePhase, h, List.filter_cons, allOk, ih]
      omega

theorem sendAllPhase_allOk (asnW : Nat) (l : AdvMap) (k : Nat) :
    sendAllPhase allOk asnW l k = (l.map fun p => Msg.update asnW p.2, k + l.length, true) := by
  induction l generalizing k with
  | nil => simp [sendAllPhase]
  | cons p rest ih =>
    simp [sendAllPhase, allOk, ih]
    omega

theorem updatePhase_mem (sendOk : Nat → Bool) (asnW : Nat) (advertised : AdvMap)
    (l : AdvMap) (k : Nat) (m : Msg) (hm : m ∈ (updatePhase sendOk asnW advertised l k).1) :
    ∃ p ∈ l, m = Msg.update asnW p.2 := by
  induction l generalizing k with
  | nil => simp [updatePhase] at hm
  | cons p rest ih =>
    unfold updatePhase at hm
    split at hm
    · obtain ⟨q, hq, he⟩ := ih _ hm
      exact ⟨q, List.mem_cons_of_mem _ hq, he⟩
    · split at hm
      · rcases List.mem_cons.1 hm with hm | hm
        · exact ⟨p, List.mem_cons_self _ _, hm⟩
        · obtain ⟨q, hq, he⟩ := ih _ hm
          exact ⟨q, List.mem_cons_of_mem _ hq, he⟩
      · simp at hm

theorem sendAllPhase_mem (sendOk : Nat → Bool) (asnW : Nat)
    (l : AdvMap) (k : Nat) (m : Msg) (hm : m ∈ (sendAllPhase sendOk asnW l k).1) :
    ∃ p ∈ l, m = Msg.update asnW p.2 := by
  induction l generalizing k with
  | nil => simp [sendAllPhase] at hm
  | cons p rest ih =>
    unfold sendAllPhase at hm
    split at hm
    · rcases List.mem_cons.1 hm with hm | hm
      · exact ⟨p, List.mem_cons_self _ _, hm⟩
      · obtain ⟨q, hq, he⟩ := ih _ hm
        exact ⟨q, List.mem_cons_of_mem _ hq, he⟩
    · simp at hm

theorem updatesFor_append (ms1 ms2 : List Msg) (c : String) :
    updatesFor (ms1 ++ ms2) c = updatesFor ms1 c + updatesFor ms2 c := by
  simp [updatesFor, List.filter_append]

theorem updatesFor_not_mem (asnW : Nat) (l : AdvMap) (f : String × Advertisement → Bool)
    (c : String) (hk : ∀ p ∈ l, p.1 = prefixKey p.2.Prefix) (hc : c ∉ l.map Prod.fst) :
    updatesFor ((l.filter f).map fun q => Msg.update asnW q.2) c = 0 := by
  induction l with
  | nil => simp [updatesFor]
  | cons p rest ih =>
    have hp : p.1 = prefixKey p.2.Prefix := hk p (by simp)
    have hcrest : c ∉ rest.map Prod.fst := fun hh => hc (by simp [hh])
    have hcp : ¬prefixKey p.2.Prefix = c := by
      intro hh
      apply hc
      rw [List.map_cons, hp, hh]
      exact List.mem_cons_self c _
    have ihr := ih (fun q hq => hk q (by simp [hq])) hcrest
    by_cases hf : f p
    · simpa [List.filter_cons, hf, updatesFor, isUpdateFor, hcp] using ihr
    · simpa [List.filter_cons, hf] using ihr

theorem updatesFor_diff (asnW : Nat) (l : AdvMap) (f : String × Advertisement → Bool)
    (hnd : (l.map Prod.fst).Nodup) (hk : ∀ p ∈ l, p.1 = prefixKey p.2.Prefix)
    (p : String × Advertisement) (hp : p ∈ l) :
    updatesFor ((l.filter f).map fun q => Msg.update asnW q.2) p.1 =
      if f p then 1 else 0 := by
  induction l with
  | nil => cases hp
  | cons q rest ih =>
    have hnd2 : (q.1 :: rest.map Prod.fst).Nodup := by rw [← List.map_cons]; exact hnd
    have hq1 : q.1 ∉ rest.map Prod.fst := (List.nodup_cons.1 hnd2).1
    have hndr : (rest.map Prod.fst).Nodup := (List.nodup_cons.1 hnd2).2
    have hkr : ∀ x ∈ rest, x.1 = prefixKey x.2.Prefix := fun x hx => hk x (by simp [hx])
    rcases List.mem_cons.1 hp with rfl | hp2
    · have hkey : prefixKey p.2.Prefix = p.1 := (hk p (by simp)).symm
      have hzero := updatesFor_not_mem asnW rest f p.1 hkr hq1
      by_cases hf : f p
      · simp [List.filter_cons, hf, updatesFor, isUpdateFor, hkey] at hzero ⊢
        simpa [updatesFor, isUpdateFor] using hzero
      · simpa [List.filter_cons, hf] using hzero
    · have hne : ¬prefixKey q.2.Prefix = p.1 := by
        intro hh
        have hq1p : q.1 = p.1 := by rw [hk q (by simp)]; exact hh
        exact hq1 (hq1p ▸ List.mem_map_of_mem Prod.fst hp2)
      have ihr := ih hndr hkr hp2
      by_cases hf : f q
      · simpa [List.filter_cons, hf, updatesFor, isUpdateFor, hne] using ihr
      · simpa [List.filter_cons, hf] using ihr

theorem shouldSkip_iff (advertised : AdvMap) (c : String) (adv : Advertisement) :
    shouldSkip advertised c adv = true ↔
      ∃ adv2, mapLookup advertised c = some adv2 ∧
        ipEqual adv2.NextHop adv.NextHop = true ∧ adv2.Communities = adv.Communities := by
  unfold shouldSkip
  cases h : mapLookup advertised c <;> simp

theorem writerIter_allOk (s : Session) (pend : AdvMap) (k : Nat)
    (hc : s.closed = false) (hn : ¬s.conn = none) (hp : s.new = some pend) :
    ∃ k2, s.writerIter allOk k =
      WriterOut.next
        (((pend.filter fun p => !shouldSkip s.advertised p.1 p.2).map fun p =>
            Msg.update s.wireASN p.2) ++
          (if withdrawnPrefixes s.advertised pend = [] then []
           else [Msg.withdraw (withdrawnPrefixes s.advertised pend)]))
        { s with advertised := pend, new := none } k2 := by
  by_cases hw : withdrawnPrefixes s.advertised pend = []
  · exact ⟨k + (pend.filter fun p => !shouldSkip s.advertised p.1 p.2).length,
      by simp [Session.writerIter, hc, hn, hp, updatePhase_allOk, hw, allOk]⟩
  · exact ⟨k + (pend.filter fun p => !shouldSkip s.advertised p.1 p.2).length + 1,
      by simp [Session.writerIter, hc, hn, hp, updatePhase_allOk, hw, allOk,
        List.isEmpty_iff]⟩

theorem writerIter_retErr (s : Session) (sendOk : Nat → Bool) (k : Nat)
    (msgs : List Msg) (s2 : Session) (k2 : Nat)
    (h : s.writerIter sendOk k = .retErr msgs s2 k2) :
    s2 = s.abort ∧ ∃ pend, s.new = some pend := by
  unfold Session.writerIter at h
  split at h
  · simp at h
  · split at h
    · simp at h
    · split at h
      · simp at h
      · next pend hpend =>
        refine ⟨?_, pend, hpend⟩
        split at h
        · rw [WriterOut.retErr.injEq] at h
          exact h.2.1.symm
        · split at h
          · simp at h
          · split at h
            · simp at h
            · rw [WriterOut.retErr.injEq] at h
              exact h.2.1.symm

theorem promote_new (s : Session) : s.promote.new = none := by
  unfold Session.promote
  cases h : s.new <;> simp [h]

theorem promote_advertised (s : Session) :
    s.promote.advertised = (match s.new with | some m => m | none => s.advertised) := by
  unfold Session.promote
  cases h : s.new <;> simp

theorem firstPass_fail (s : Session) (sendOk : Nat → Bool) (k : Nat)
    (msgs : List Msg) (s2 : Session) (k2 : Nat)
    (h : s.firstPass sendOk k = (msgs, s2, k2, false)) :
    s2.conn = none ∧ s2.new = none ∧
    s2.advertised = (match s.new with | some m => m | none => s.advertised) := by
  unfold Session.firstPass at h
  split at h
  · simp at h
  · have hs2 : s2 = s.promote.abort := by
      have hcomp := congrArg (fun x => x.2.1) h
      exact hcomp.symm
    rcases abort_spec s.promote with ⟨h1, h2, h3⟩
    rw [promote_new] at h3
    rw [promote_advertised] at h3
    exact ⟨hs2 ▸ h1, hs2 ▸ h2, hs2 ▸ h3⟩

theorem mem_mapInsert (m : AdvMap) (k : String) (v : Advertisement)
    (q : String × Advertisement) (hq : q ∈ mapInsert m k v) : q = (k, v) ∨ q ∈ m := by
  induction m with
  | nil => simpa [mapInsert] using hq
  | cons p rest ih =>
    unfold mapInsert at hq
    split at hq
    · rcases List.mem_cons.1 hq with hq | hq
      · exact Or.inl hq
      · exact Or.inr (List.mem_cons_of_mem _ hq)
    · rcases List.mem_cons.1 hq with hq | hq
      · exact Or.inr (hq ▸ List.mem_cons_self _ _)
      · rcases ih hq with hq | hq
        · exact Or.inl hq
        · exact Or.inr (List.mem_cons_of_mem _ hq)

theorem mem_insFold (advs : List Advertisement) (m : AdvMap)
    (q : String × Advertisement) (hq : q ∈ insFold m advs) : q ∈ m ∨ q.2 ∈ advs := by
  induction advs generalizing m with
  | nil => exact Or.inl (by simpa [insFold] using hq)
  | cons a rest ih =>
    have hstep : insFold m (a :: rest) = insFold (mapInsert m (prefixKey a.Prefix) a) rest := rfl
    rw [hstep] at hq
    rcases ih _ hq with h | h
    · rcases mem_mapInsert _ _ _ _ h with rfl | h2
      · right; simp
      · exact Or.inl h2
    · right; simp [h]

theorem set_valid (s : Session) (advs : List Advertisement)
    (h : ∀ a ∈ advs, advError a = none) :
    s.Set advs = ({ s with new := some (insFold [] advs) }, none) := by
  unfold Session.Set
  rw [buildNewAdvs_ok advs [] h]

theorem writerIter_msgs_update (s : Session) (sendOk : Nat → Bool) (k : Nat)
    (m : Msg) (hm : m ∈ (s.writerIter sendOk k).msgs)
    (a : Nat) (adv : Advertisement) (he : m = Msg.update a adv) :
    a = s.wireASN ∧ ∃ pend p, s.new = some pend ∧ p ∈ pend ∧ adv = p.2 := by
  unfold Session.writerIter at hm
  split at hm
  · simp [WriterOut.msgs] at hm
  · split at hm
    · simp [WriterOut.msgs] at hm
    · split at hm
      · simp [WriterOut.msgs] at hm
      · next pend hpend =>
        have hfin : m ∈ (updatePhase sendOk s.wireASN s.advertised pend k).1 →
            a = s.wireASN ∧ ∃ pend2 p, s.new = some pend2 ∧ p ∈ pend2 ∧ adv = p.2 := by
          intro hmem
          obtain ⟨p, hp, he2⟩ := updatePhase_mem sendOk s.wireASN s.advertised pend k m hmem
          rw [he] at he2
          rw [Msg.update.injEq] at he2
          exact ⟨he2.1, pend, p, hpend, hp, he2.2⟩
        split at hm
        · exact hfin (by simpa [WriterOut.msgs] using hm)
        · split at hm
          · exact hfin (by simpa [WriterOut.msgs] using hm)
          · split at hm
            · simp only [WriterOut.msgs] at hm
              rcases List.mem_append.1 hm with hm | hm
              · exact hfin hm
              · simp at hm
                rw [hm] at he
                simp at he
            · exact hfin (by simpa [WriterOut.msgs] using hm)

theorem firstPass_msgs_update (s : Session) (sendOk : Nat → Bool) (k : Nat)
    (m : Msg) (hm : m ∈ (s.firstPass sendOk k).1)
    (a : Nat) (adv : Advertisement) (he : m = Msg.update a adv) :
    a = s.wireASN ∧ ∃ p, p ∈ s.promote.advertised ∧ adv = p.2 := by
  unfold Session.firstPass at hm
  have hmem : m ∈ (sendAllPhase sendOk s.wireASN s.promote.advertised k).1 := by
    split at hm <;> simpa using hm
  obtain ⟨p, hp, he2⟩ := sendAllPhase_mem sendOk s.wireASN s.promote.advertised k m hmem
  rw [he] at he2
  rw [Msg.update.injEq] at he2
  exact ⟨he2.1, p, hp, he2.2⟩

theorem withdrawnPrefixes_nil (adv : AdvMap) :
    withdrawnPrefixes adv [] = adv.map fun p => p.2.Prefix := by
  simp [withdrawnPrefixes, mapLookup]

theorem withdrawMsgs_updates (asnW : Nat) (l : AdvMap) :
    withdrawMsgs (l.map fun p => Msg.update asnW p.2) = [] := by
  induction l with
  | nil => simp [withdrawMsgs]
  | cons p rest _ => simp [withdrawMsgs]

theorem withdrawMsgs_append (ms1 ms2 : List Msg) :
    withdrawMsgs (ms1 ++ ms2) = withdrawMsgs ms1 ++ withdrawMsgs ms2 := by
  simp [withdrawMsgs]

/-- C1: in a steady-state diff pass of the Writer with every send
succeeding, an entry (k, advNew) of the pending desired map receives no
UPDATE iff the advertised map holds an entry under the same key whose
NextHop equals advNew's and whose Communities are element-wise equal;
every other entry receives exactly one UPDATE.  The skip condition never
reads LocalPref, so a LocalPref-only difference causes no UPDATE. -/
theorem C1_steady_diff_update_iff (s : Session) (pend : AdvMap)
    (hc : s.closed = false) (hn : ¬s.conn = none) (hp : s.new = some pend)
    (hnd : (pend.map Prod.fst).Nodup)
    (hk : ∀ p ∈ pend, p.1 = prefixKey p.2.Prefix) :
    ∃ msgs s2 k2, s.writerIter allOk 0 = WriterOut.next msgs s2 k2 ∧
      ∀ p ∈ pend,
        ((∃ adv2, mapLookup s.advertised p.1 = some adv2 ∧
            ipEqual adv2.NextHop p.2.NextHop = true ∧
            adv2.Communities = p.2.Communities) →
          updatesFor msgs p.1 = 0) ∧
        (¬(∃ adv2, mapLookup s.advertised p.1 = some adv2 ∧
            ipEqual adv2.NextHop p.2.NextHop = true ∧
            adv2.Communities = p.2.Communities) →
          updatesFor msgs p.1 = 1) := by
  obtain ⟨k2, hiter⟩ := writerIter_allOk s pend 0 hc hn hp
  refine ⟨_, _, k2, hiter, ?_⟩
  intro p hpmem
  have hcount := updatesFor_diff s.wireASN pend
    (fun q => !shouldSkip s.advertised q.1 q.2) hnd hk p hpmem
  have hwz : updatesFor
      (if withdrawnPrefixes s.advertised pend = [] then []
       else [Msg.withdraw (withdrawnPrefixes s.advertised pend)]) p.1 = 0 := by
    split <;> simp [updatesFor, isUpdateFor]
  rw [updatesFor_append, hwz, Nat.add_zero]
  constructor
  · intro hex
    have hskip := (shouldSkip_iff s.advertised p.1 p.2).2 hex
    rw [hcount]
    simp [hskip]
  · intro hex
    cases hb : shouldSkip s.advertised p.1 p.2 with
    | true => exact absurd ((shouldSkip_iff s.advertised p.1 p.2).1 hb) hex
    | false =>
      rw [hcount]
      simp [hb]

theorem C1_witness :
    ∃ msgs s2 k2, sessC1.writerIter allOk 0 = WriterOut.next msgs s2 k2 ∧
      ∀ p ∈ pendC1,
        ((∃ adv2, mapLookup sessC1.advertised p.1 = some adv2 ∧
            ipEqual adv2.NextHop p.2.NextHop = true ∧
            adv2.Communities = p.2.Communities) →
          updatesFor msgs p.1 = 0) ∧
        (¬(∃ adv2, mapLookup sessC1.advertised p.1 = some adv2 ∧
            ipEqual adv2.NextHop p.2.NextHop = true ∧
            adv2.Communities = p.2.Communities) →
          updatesFor msgs p.1 = 1) :=
  C1_steady_diff_update_iff sessC1 pendC1 rfl (by decide) rfl (by decide) (by decide)

/-- C2: in a steady-state diff pass with every send succeeding, the
withdrawn batch is exactly the prefixes of the advertised entries whose
key is absent from the pending desired map; one WITHDRAW message carries
all of them when that list is non-empty, and no WITHDRAW is sent when it
is empty. -/
theorem C2_withdraw_derivation (s : Session) (pend : AdvMap)
    (hc : s.closed = false) (hn : ¬s.conn = none) (hp : s.new = some pend) :
    ∃ msgs s2 k2, s.writerIter allOk 0 = WriterOut.next msgs s2 k2 ∧
      withdrawMsgs msgs =
        (if (s.advertised.filter fun p => (mapLookup pend p.1).isNone).map
              (fun p => p.2.Prefix) = []
         then []
         else [(s.advertised.filter fun p => (mapLookup pend p.1).isNone).map
              (fun p => p.2.Prefix)]) := by
  obtain ⟨k2, hiter⟩ := writerIter_allOk s pend 0 hc hn hp
  refine ⟨_, _, k2, hiter, ?_⟩
  rw [withdrawMsgs_append, withdrawMsgs_updates]
  unfold withdrawnPrefixes
  split <;> simp [withdrawMsgs]

theorem C2_witness :
    ∃ msgs s2 k2, sessC2.writerIter allOk 0 = WriterOut.next msgs s2 k2 ∧
      withdrawMsgs msgs =
        (if (sessC2.advertised.filter fun p => (mapLookup pendC2 p.1).isNone).map
              (fun p => p.2.Prefix) = []
         then []
         else [(sessC2.advertised.filter fun p => (mapLookup pendC2 p.1).isNone).map
              (fun p => p.2.Prefix)]) :=
  C2_withdraw_derivation sessC2 pendC2 rfl (by decide) rfl

/-- C3: a send error in the Writer, during a steady-state diff pass or
during the first pass after (re)connect, leaves the socket closed (conn
absent) and the desired map absent, with any still-present desired map
having replaced `advertised`; the state never commits a partial diff. -/
theorem C3_send_error_resync (s : Session) (sendOk : Nat → Bool) (k : Nat) :
    (∀ msgs s2 k2, s.writerIter sendOk k = WriterOut.retErr msgs s2 k2 →
        s2.conn = none ∧ s2.new = none ∧ s.new = some s2.advertised) ∧
    (∀ msgs s2 k2, s.firstPass sendOk k = (msgs, s2, k2, false) →
        s2.conn = none ∧ s2.new = none ∧
        s2.advertised = (match s.new with | some m => m | none => s.advertised)) := by
  constructor
  · intro msgs s2 k2 h
    obtain ⟨hs2, pend, hpend⟩ := writerIter_retErr s sendOk k msgs s2 k2 h
    rcases abort_spec s with ⟨h1, h2, h3⟩
    rw [hpend] at h3
    refine ⟨hs2 ▸ h1, hs2 ▸ h2, ?_⟩
    rw [hpend, hs2, h3]
  · exact fun msgs s2 k2 h => firstPass_fail s sendOk k msgs s2 k2 h

theorem C3_witness :
    sessC3.writerIter allFail 0 = WriterOut.retErr [] sessC3.abort 0 ∧
    sessC3.abort.conn = none ∧ sessC3.abort.new = none ∧
    sessC3.new = some sessC3.abort.advertised := by
  have h : sessC3.writerIter allFail 0 = WriterOut.retErr [] sessC3.abort 0 := by decide
  exact ⟨h, (C3_send_error_resync sessC3 allFail 0).1 [] sessC3.abort 0 h⟩

/-- C4: an absent desired map keeps the Writer waiting and its loop body
emits nothing, while a present-and-empty desired map makes the Writer
withdraw every advertised prefix and leaves `advertised` empty; Set with
zero advertisements produces exactly the present-and-empty state. -/
theorem C4_empty_vs_absent (s : Session) :
    (s.new = none → ¬s.conn = none → s.closed = false →
        s.writerWaits = true ∧ ∀ k, s.writerIter allOk k = WriterOut.next [] s k) ∧
    (s.closed = false → ¬s.conn = none → s.new = some [] →
        ∀ k, ∃ msgs s2 k2, s.writerIter allOk k = WriterOut.next msgs s2 k2 ∧
          s2.advertised = [] ∧ s2.new = none ∧
          (∀ c, updatesFor msgs c = 0) ∧
          withdrawMsgs msgs =
            (if s.advertised = [] then []
             else [s.advertised.map fun q : String × Advertisement => q.2.Prefix])) ∧
    s.Set [] = ({ s with new := some [] }, none) := by
  refine ⟨?_, ?_, rfl⟩
  · intro hnew hconn hcl
    constructor
    · simp [Session.writerWaits, hnew, Option.isSome_iff_ne_none, hconn]
    · intro k
      simp [Session.writerIter, hnew, hconn, hcl]
  · intro hcl hconn hnew k
    obtain ⟨k2, hiter⟩ := writerIter_allOk s [] k hcl hconn hnew
    refine ⟨_, _, k2, hiter, rfl, rfl, ?_, ?_⟩
    · intro c
      rw [updatesFor_append]
      have h1 : updatesFor ((List.filter (fun p => !shouldSkip s.advertised p.1 p.2)
          ([] : AdvMap)).map fun p => Msg.update s.wireASN p.2) c = 0 := by
        simp [updatesFor]
      have h2 : updatesFor
          (if withdrawnPrefixes s.advertised [] = [] then []
           else [Msg.withdraw (withdrawnPrefixes s.advertised [])]) c = 0 := by
        split <;> simp [updatesFor, isUpdateFor]
      rw [h1, h2]
    · rw [withdrawMsgs_append, withdrawMsgs_updates, withdrawnPrefixes_nil]
      by_cases ha : s.advertised = []
      · simp [ha, withdrawMsgs]
      · have hm : ¬(s.advertised.map fun q : String × Advertisement => q.2.Prefix) = [] := by
          simpa [List.map_eq_nil_iff] using ha
        simp [ha, hm, withdrawMsgs]

theorem C4_witness :
    (sessC4b.writerWaits = true ∧
      ∀ k, sessC4b.writerIter allOk k = WriterOut.next [] sessC4b k) ∧
    (∃ msgs s2 k2, sessC4.writerIter allOk 0 = WriterOut.next msgs s2 k2 ∧
      s2.advertised = [] ∧ s2.new = none ∧
      (∀ c, updatesFor msgs c = 0) ∧
      withdrawMsgs msgs =
        (if sessC4.advertised = [] then []
         else [sessC4.advertised.map fun q : String × Advertisement => q.2.Prefix])) ∧
    sampleSession.Set [] = ({ sampleSession with new := some [] }, none) :=
  ⟨(C4_empty_vs_absent sessC4b).1 rfl (by decide) rfl,
   (C4_empty_vs_absent sessC4).2.1 rfl (by decide) rfl 0,
   (C4_empty_vs_absent sampleSession).2.2⟩

/-- C5: Set replaces the pending desired set wholesale: after Set(A) then
Set(B) with no diff in between, the pending map is exactly the one built
from B keyed by prefix string (the same state Set(B) alone produces), and
neither the Writer's next diff pass nor its first pass can transmit any
advertisement outside B. -/
theorem C5_set_supersedes (s : Session) (A B : List Advertisement)
    (hA : ∀ a ∈ A, advError a = none) (hB : ∀ b ∈ B, advError b = none) :
    ∃ mB, buildNewAdvs B [] = Except.ok mB ∧
      ((s.Set A).1.Set B).1 = { s with new := some mB } ∧
      ((s.Set A).1.Set B).1.new = (s.Set B).1.new ∧
      (∀ sendOk k m, m ∈ (((s.Set A).1.Set B).1.writerIter sendOk k).msgs →
        ∀ a adv, m = Msg.update a adv → adv ∈ B) ∧
      (∀ sendOk k m, m ∈ (((s.Set A).1.Set B).1.firstPass sendOk k).1 →
        ∀ a adv, m = Msg.update a adv → adv ∈ B) := by
  have hAB : ((s.Set A).1.Set B).1 = { s with new := some (insFold [] B) } := by
    rw [set_valid s A hA, set_valid _ B hB]
  have hname : ((s.Set A).1.Set B).1.new = some (insFold [] B) := by rw [hAB]
  refine ⟨insFold [] B, buildNewAdvs_ok B [] hB, hAB, ?_, ?_, ?_⟩
  · rw [hAB, set_valid s B hB]
  · intro sendOk k m hm a adv he
    obtain ⟨_, pend, p, hpend, hp, hadv⟩ :=
      writerIter_msgs_update _ sendOk k m hm a adv he
    rw [hname] at hpend
    have hpend2 : pend = insFold [] B := by
      exact (Option.some.injEq _ _ ▸ hpend).symm
    rw [hpend2] at hp
    rcases mem_insFold B [] p hp with hfalse | hmem
    · cases hfalse
    · exact hadv ▸ hmem
  · intro sendOk k m hm a adv he
    obtain ⟨_, p, hp, hadv⟩ := firstPass_msgs_update _ sendOk k m hm a adv he
    rw [promote_advertised, hname] at hp
    rcases mem_insFold B [] p hp with hfalse | hmem
    · cases hfalse
    · exact hadv ▸ hmem

theorem C5_witness :
    ∃ mB, buildNewAdvs [sampleAdv2] [] = Except.ok mB ∧
      ((sampleSession.Set [sampleAdv1]).1.Set [sampleAdv2]).1 =
        { sampleSession with new := some mB } ∧
      ((sampleSession.Set [sampleAdv1]).1.Set [sampleAdv2]).1.new =
        (sampleSession.Set [sampleAdv2]).1.new ∧
      (∀ sendOk k m,
        m ∈ (((sampleSession.Set [sampleAdv1]).1.Set [sampleAdv2]).1.writerIter sendOk k).msgs →
        ∀ a adv, m = Msg.update a adv → adv ∈ [sampleAdv2]) ∧
      (∀ sendOk k m,
        m ∈ (((sampleSession.Set [sampleAdv1]).1.Set [sampleAdv2]).1.firstPass sendOk k).1 →
        ∀ a adv, m = Msg.update a adv → adv ∈ [sampleAdv2]) :=
  C5_set_supersedes sampleSession [sampleAdv1] [sampleAdv2] (by decide) (by decide)

/-- C6: the negotiated hold time is the minimum of the configured local
hold time and the peer-requested one; a non-zero published hold time makes
the keepalive ticker run with period exactly one third of it, a zero one
leaves it idle; local 90s with peer-requested 30s yields a 10s period. -/
theorem C6_holdtime_negotiation :
    (∀ (s : Session) (r : Nat), (s.connectHold r).actualHoldTime = min s.holdTime r) ∧
    (∀ (ht : Nat) (t : Option Nat), ht ≠ 0 → keepaliveTimer ht t = some (ht / 3)) ∧
    (∀ t : Option Nat, keepaliveTimer 0 t = none) ∧
    (∀ (s : Session) (t : Option Nat), s.holdTime = 90 * second →
        keepaliveTimer (s.connectHold (30 * second)).actualHoldTime t =
          some (10 * second)) := by
  refine ⟨?_, ?_, ?_, ?_⟩
  · intro s r
    have hch : (s.connectHold r).actualHoldTime =
        if r < s.holdTime then r else s.holdTime := rfl
    rw [hch]
    rcases Nat.lt_or_ge r s.holdTime with h | h
    · rw [if_pos h, Nat.min_def, if_neg (by omega)]
    · rw [if_neg (by omega), Nat.min_def, if_pos (by omega)]
  · intro ht t h
    simp [keepaliveTimer, h]
  · intro t
    simp [keepaliveTimer]
  · intro s t h
    have hch : (s.connectHold (30 * second)).actualHoldTime =
        if 30 * second < s.holdTime then 30 * second else s.holdTime := rfl
    rw [hch, h]
    norm_num [keepaliveTimer, second]

theorem C6_witness :
    keepaliveTimer ((sampleSession.connectHold (30 * second)).actualHoldTime) none =
      some (10 * second) :=
  C6_holdtime_negotiation.2.2.2 sampleSession none rfl

/-- C7: the terminating Reader calls abort iff the Session's current
connection is still, by identity, the connection the Reader was bound to;
a stale Reader leaves the Session state untouched. -/
theorem C7_stale_reader_safety (s : Session) (conn : Nat) :
    ((s.consumeBGPCleanup conn).2 = true ↔ s.conn = some conn) ∧
    (s.conn = some conn → (s.consumeBGPCleanup conn).1 = s.abort) ∧
    (¬s.conn = some conn → (s.consumeBGPCleanup conn).1 = s) := by
  unfold Session.consumeBGPCleanup
  by_cases h : s.conn = some conn <;> simp [h]

theorem C7_witness :
    (({ sampleSession with conn := some 2 }).consumeBGPCleanup 1).1 =
      { sampleSession with conn := some 2 } :=
  (C7_stale_reader_safety { sampleSession with conn := some 2 } 1).2.2 (by decide)

/-- C8: Set returns an error iff some supplied advertisement has a
non-IPv4 prefix, a non-IPv4 next hop, or more than 63 communities; on an
error the session state is unchanged. -/
theorem C8_set_validation (s : Session) (advs : List Advertisement) :
    (((s.Set advs).2).isSome = true ↔
      ∃ adv ∈ advs, ipTo4 adv.Prefix.IP = none ∨ ipTo4 adv.NextHop = none ∨
        63 < adv.Communities.length) ∧
    (((s.Set advs).2).isSome = true → (s.Set advs).1 = s) := by
  unfold Session.Set
  cases hb : buildNewAdvs advs [] with
  | error e =>
    refine ⟨⟨fun _ => ?_, fun _ => rfl⟩, fun _ => rfl⟩
    obtain ⟨a, ha, hsome⟩ := (buildNewAdvs_error_iff advs []).1 ⟨e, hb⟩
    exact ⟨a, ha, (advError_isSome_iff a).1 hsome⟩
  | ok m =>
    constructor
    · constructor
      · intro habs
        simp at habs
      · rintro ⟨a, ha, hbad⟩
        obtain ⟨e, he⟩ := (buildNewAdvs_error_iff advs []).2
          ⟨a, ha, (advError_isSome_iff a).2 hbad⟩
        rw [hb] at he
        cases he
    · intro habs
      simp at habs

theorem C8_witness :
    ((sampleSession.Set [sampleAdv1, badAdv]).2).isSome = true ∧
    (sampleSession.Set [sampleAdv1, badAdv]).1 = sampleSession := by
  have h := C8_set_validation sampleSession [sampleAdv1, badAdv]
  have herr : ((sampleSession.Set [sampleAdv1, badAdv]).2).isSome = true :=
    h.1.mpr ⟨badAdv, by decide, by decide⟩
  exact ⟨herr, h.2 herr⟩

/-- C9: every UPDATE the Writer emits (first pass or steady-state diff)
carries the sentinel ASN 0 when the configured local ASN equals the
configured peer ASN, and the local ASN otherwise. -/
theorem C9_ibgp_asn_sentinel (s : Session) (sendOk : Nat → Bool) (k : Nat) (m : Msg)
    (hm : m ∈ (s.writerIter sendOk k).msgs ∨ m ∈ (s.firstPass sendOk k).1)
    (a : Nat) (adv : Advertisement) (he : m = Msg.update a adv) :
    a = (if s.asn = s.peerASN then 0 else s.asn) := by
  have hw : s.wireASN = (if s.asn = s.peerASN then 0 else s.asn) := by
    unfold Session.wireASN
    rcases eq_or_ne s.asn s.peerASN with h | h
    · simp [h]
    · simp [h, Ne.symm h]
  rcases hm with hm | hm
  · exact ((writerIter_msgs_update s sendOk k m hm a adv he).1).trans hw
  · exact ((firstPass_msgs_update s sendOk k m hm a adv he).1).trans hw

theorem C9_witness :
    (0 : Nat) = (if sessC9.asn = sessC9.peerASN then 0 else sessC9.asn) :=
  C9_ibgp_asn_sentinel sessC9 allOk 0 (Msg.update 0 sampleAdv1)
    (Or.inl (by decide)) 0 sampleAdv1 rfl

/-- C10: a Set call whose advertisements are all valid succeeds even when
several share a prefix string, and the resulting pending map sends every
prefix string to the last advertisement carrying it in argument order;
earlier duplicates are discarded. -/
theorem C10_duplicate_last_wins (s : Session) (advs : List Advertisement)
    (h : ∀ a ∈ advs, advError a = none) :
    (s.Set advs).2 = none ∧
    ∃ m, (s.Set advs).1.new = some m ∧
      ∀ c, mapLookup m c = (advs.filter fun a => prefixKey a.Prefix == c).getLast? := by
  rw [set_valid s advs h]
  refine ⟨rfl, insFold [] advs, rfl, fun c => ?_⟩
  rw [lookup_insFold]
  cases hl : (advs.filter fun a => prefixKey a.Prefix == c).getLast? <;> simp [mapLookup]

theorem C10_witness :
    (sampleSession.Set [sampleAdv2, sampleAdv2b]).2 = none ∧
    ∃ m, (sampleSession.Set [sampleAdv2, sampleAdv2b]).1.new = some m ∧
      ∀ c, mapLookup m c =
        ([sampleAdv2, sampleAdv2b].filter fun a => prefixKey a.Prefix == c).getLast? :=
  C10_duplicate_last_wins sampleSession [sampleAdv2, sampleAdv2b] (by decide)

end BgpSpec
